import Mathlib

/-!
Verification of the lexer in `src/lexer/lexer.rs`.

A shallow embedding of the Rust lexical scanner.  Rust string slices
(`&str`) are modelled as `List Char` (Rust guarantees valid UTF-8, so a
slice is exactly a sequence of Unicode scalar values).  Byte-index
slicing (`&code[..i]`), which panics when `i` is not a character
boundary, is modelled explicitly via UTF-8 byte sizes.  Code that can
panic returns a value in `PRes`.
-/

/-- Result of running Rust code that may panic: either a normal value or
a panic (Rust index-out-of-bounds / non-char-boundary slicing). -/
inductive PRes (α : Type) where
  | panic : PRes α
  | ok : α → PRes α
deriving DecidableEq

/-- The Unicode `White_Space` code points, as closed ranges. -/
def wsRanges : List (Nat × Nat) :=
  [(0x9, 0xD), (0x20, 0x20), (0x85, 0x85), (0xA0, 0xA0), (0x1680, 0x1680),
   (0x2000, 0x200A), (0x2028, 0x2029), (0x202F, 0x202F), (0x205F, 0x205F),
   (0x3000, 0x3000)]

/-- Models Rust `char::is_whitespace`: the Unicode `White_Space` property. -/
def isWhitespaceRust (c : Char) : Bool :=
  wsRanges.any (fun p => p.1 ≤ c.toNat && c.toNat ≤ p.2)

/-- Closed ranges of the code points whose Unicode general category is
Nd, Nl or No — exactly the characters Rust `char::is_numeric` accepts.
The table is the complete Nd/Nl/No list of the Unicode character
database (version 14.0.0), over all planes. -/
def numericRanges : List (Nat × Nat) :=
  [(0x30, 0x39), (0xB2, 0xB3), (0xB9, 0xB9), (0xBC, 0xBE), (0x660, 0x669),
   (0x6F0, 0x6F9), (0x7C0, 0x7C9), (0x966, 0x96F), (0x9E6, 0x9EF),
   (0x9F4, 0x9F9), (0xA66, 0xA6F), (0xAE6, 0xAEF), (0xB66, 0xB6F),
   (0xB72, 0xB77), (0xBE6, 0xBF2), (0xC66, 0xC6F), (0xC78, 0xC7E),
   (0xCE6, 0xCEF), (0xD58, 0xD5E), (0xD66, 0xD78), (0xDE6, 0xDEF),
   (0xE50, 0xE59), (0xED0, 0xED9), (0xF20, 0xF33), (0x1040, 0x1049),
   (0x1090, 0x1099), (0x1369, 0x137C), (0x16EE, 0x16F0), (0x17E0, 0x17E9),
   (0x17F0, 0x17F9), (0x1810, 0x1819), (0x1946, 0x194F), (0x19D0, 0x19DA),
   (0x1A80, 0x1A89), (0x1A90, 0x1A99), (0x1B50, 0x1B59), (0x1BB0, 0x1BB9),
   (0x1C40, 0x1C49), (0x1C50, 0x1C59), (0x2070, 0x2070), (0x2074, 0x2079),
   (0x2080, 0x2089), (0x2150, 0x2182), (0x2185, 0x2189), (0x2460, 0x249B),
   (0x24EA, 0x24FF), (0x2776, 0x2793), (0x2CFD, 0x2CFD), (0x3007, 0x3007),
   (0x3021, 0x3029), (0x3038, 0x303A), (0x3192, 0x3195), (0x3220, 0x3229),
   (0x3248, 0x324F), (0x3251, 0x325F), (0x3280, 0x3289), (0x32B1, 0x32BF),
   (0xA620, 0xA629), (0xA6E6, 0xA6EF), (0xA830, 0xA835), (0xA8D0, 0xA8D9),
   (0xA900, 0xA909), (0xA9D0, 0xA9D9), (0xA9F0, 0xA9F9), (0xAA50, 0xAA59),
   (0xABF0, 0xABF9), (0xFF10, 0xFF19), (0x10107, 0x10133),
   (0x10140, 0x10178), (0x1018A, 0x1018B), (0x102E1, 0x102FB),
   (0x10320, 0x10323), (0x10341, 0x10341), (0x1034A, 0x1034A),
   (0x103D1, 0x103D5), (0x104A0, 0x104A9), (0x10858, 0x1085F),
   (0x10879, 0x1087F), (0x108A7, 0x108AF), (0x108FB, 0x108FF),
   (0x10916, 0x1091B), (0x109BC, 0x109BD), (0x109C0, 0x109CF),
   (0x109D2, 0x109FF), (0x10A40, 0x10A48), (0x10A7D, 0x10A7E),
   (0x10A9D, 0x10A9F), (0x10AEB, 0x10AEF), (0x10B58, 0x10B5F),
   (0x10B78, 0x10B7F), (0x10BA9, 0x10BAF), (0x10CFA, 0x10CFF),
   (0x10D30, 0x10D39), (0x10E60, 0x10E7E), (0x10F1D, 0x10F26),
   (0x10F51, 0x10F54), (0x10FC5, 0x10FCB), (0x11052, 0x1106F),
   (0x110F0, 0x110F9), (0x11136, 0x1113F), (0x111D0, 0x111D9),
   (0x111E1, 0x111F4), (0x112F0, 0x112F9), (0x11450, 0x11459),
   (0x114D0, 0x114D9), (0x11650, 0x11659), (0x116C0, 0x116C9),
   (0x11730, 0x1173B), (0x118E0, 0x118F2), (0x11950, 0x11959),
   (0x11C50, 0x11C6C), (0x11D50, 0x11D59), (0x11DA0, 0x11DA9),
   (0x11FC0, 0x11FD4), (0x12400, 0x1246E), (0x16A60, 0x16A69),
   (0x16AC0, 0x16AC9), (0x16B50, 0x16B59), (0x16B5B, 0x16B61),
   (0x16E80, 0x16E96), (0x1D2E0, 0x1D2F3), (0x1D360, 0x1D378),
   (0x1D7CE, 0x1D7FF), (0x1E140, 0x1E149), (0x1E2F0, 0x1E2F9),
   (0x1E8C7, 0x1E8CF), (0x1E950, 0x1E959), (0x1EC71, 0x1ECAB),
   (0x1ECAD, 0x1ECAF), (0x1ECB1, 0x1ECB4), (0x1ED01, 0x1ED2D),
   (0x1ED2F, 0x1ED3D), (0x1F100, 0x1F10C), (0x1FBF0, 0x1FBF9)]

/-- Models Rust `char::is_numeric` (true iff the character's Unicode
general category is Nd, Nl or No), via the range table above. -/
def isNumericRust (c : Char) : Bool :=
  numericRanges.any (fun p => p.1 ≤ c.toNat && c.toNat ≤ p.2)

/-- An ASCII decimal digit (the only characters `char::to_digit(10)`,
and hence `i32::from_str`, accepts as digits). -/
def isAsciiDigit (c : Char) : Bool :=
  0x30 ≤ c.toNat && c.toNat ≤ 0x39

/-- Models Rust `char::len_utf8`: the number of bytes of the UTF-8
encoding of a scalar value. -/
def lenUtf8 (c : Char) : Nat :=
  if c.toNat < 0x80 then 1
  else if c.toNat < 0x800 then 2
  else if c.toNat < 0x10000 then 3
  else 4

/-- Models Rust `str::len`: the byte length of a slice. -/
def byteLen (s : List Char) : Nat :=
  (s.map lenUtf8).sum

/-- Models Rust slicing `(&s[..i], &s[i..])` at byte index `i`:
`none` (a panic in Rust) when `i` exceeds the byte length or does not
fall on a character boundary. -/
def splitAtByte : Nat → List Char → Option (List Char × List Char)
  | 0, s => some ([], s)
  | _ + 1, [] => none
  | i + 1, c :: cs =>
    if lenUtf8 c ≤ i + 1 then
      (splitAtByte (i + 1 - lenUtf8 c) cs).map (fun q => (c :: q.1, q.2))
    else none

/-- Models `code.chars().position(|c| !c.is_numeric())`: the character
index of the first non-numeric character, if any. -/
def posNonNumeric : List Char → Option Nat
  | [] => none
  | c :: cs => if isNumericRust c then (posNonNumeric cs).map (· + 1) else some 0

/-- Value of a string of ASCII decimal digits (most significant first). -/
def digitsVal (s : List Char) : Nat :=
  s.foldl (fun a c => a * 10 + (c.toNat - 0x30)) 0

/-- Digit-run part of Rust `i32::from_str`: a non-empty run of ASCII
decimal digits yields its value, anything else is a parse error. -/
def digitsValOpt (s : List Char) : Option Nat :=
  if s.isEmpty then none
  else if s.all isAsciiDigit then some (digitsVal s) else none

/-- Models Rust `str::parse::<i32>` (`i32::from_str`): an optional sign
followed by a non-empty run of ASCII decimal digits, rejected when the
value leaves the `i32` range.  (Rust checks overflow at each
accumulation step, which is equivalent to checking the final value,
since the accumulator grows monotonically.) -/
def parseI32 (s : List Char) : Option Int :=
  match s with
  | '+' :: rest =>
    (digitsValOpt rest).bind fun n =>
      if n ≤ 2147483647 then some (n : Int) else none
  | '-' :: rest =>
    (digitsValOpt rest).bind fun n =>
      if n ≤ 2147483648 then some (-(n : Int)) else none
  | _ =>
    (digitsValOpt s).bind fun n =>
      if n ≤ 2147483647 then some (n : Int) else none

/-- Models Rust `str::trim_start`: drop leading whitespace characters. -/
def trimStart (s : List Char) : List Char :=
  s.dropWhile isWhitespaceRust

/-- True when the list is empty or starts with a non-numeric character
(the condition under which the numeric prefix of `D ++ r` is exactly `D`
for an all-digit `D`). -/
def headNonNumeric (s : List Char) : Bool :=
  match s with
  | [] => true
  | c :: _ => !isNumericRust c

/-- The token type of the lexer (enum `Token` in the source). -/
inductive Token where
  | LParen | RParen | LBrace | RBrace
  | LAngleBracket | RAngleBracket
  | Plus | Minus | Asterisk | Slash
  | Ban | Underbar | Apostrophe | Question | Equals
  | Number : Int → Token
deriving DecidableEq

/-- A successful match: the produced token and the remaining slice
(struct `Lexed` in the source). -/
structure Lexed where
  token : Token
  rest : List Char
deriving DecidableEq

/-- The scanner state: the lookahead slot and the unconsumed suffix of
the input (struct `Lexer` in the source). -/
structure Lexer where
  current : Option Token
  code : List Char
deriving DecidableEq

/-- Rust `Lexer::char`: match succeeds iff the first character equals
`target`; the rest is the slice after that one character. -/
def Lexer.char (code : List Char) (target : Char) (token : Token) : Option Lexed :=
  match code with
  | [] => none
  | c :: cs => if c = target then some ⟨token, cs⟩ else none

/-- Matcher `Lexer::l_paren`. -/
def Lexer.l_paren (code : List Char) : Option Lexed :=
  Lexer.char code '(' Token.LParen

/-- Matcher `Lexer::r_paren`. -/
def Lexer.r_paren (code : List Char) : Option Lexed :=
  Lexer.char code ')' Token.RParen

/-- Matcher `Lexer::l_brace`. -/
def Lexer.l_brace (code : List Char) : Option Lexed :=
  Lexer.char code '[' Token.LBrace

/-- Matcher `Lexer::r_brace`. -/
def Lexer.r_brace (code : List Char) : Option Lexed :=
  Lexer.char code ']' Token.RBrace

/-- Matcher `Lexer::l_angle_bracket`. -/
def Lexer.l_angle_bracket (code : List Char) : Option Lexed :=
  Lexer.char code '<' Token.LAngleBracket

/-- Matcher `Lexer::r_angle_bracket`. -/
def Lexer.r_angle_bracket (code : List Char) : Option Lexed :=
  Lexer.char code '>' Token.RAngleBracket

/-- Matcher `Lexer::plus`. -/
def Lexer.plus (code : List Char) : Option Lexed :=
  Lexer.char code '+' Token.Plus

/-- Matcher `Lexer::minus`. -/
def Lexer.minus (code : List Char) : Option Lexed :=
  Lexer.char code '-' Token.Minus

/-- Matcher `Lexer::asterisk`. -/
def Lexer.asterisk (code : List Char) : Option Lexed :=
  Lexer.char code '*' Token.Asterisk

/-- Matcher `Lexer::slash`. -/
def Lexer.slash (code : List Char) : Option Lexed :=
  Lexer.char code '/' Token.Slash

/-- Matcher `Lexer::ban`. -/
def Lexer.ban (code : List Char) : Option Lexed :=
  Lexer.char code '!' Token.Ban

/-- Matcher `Lexer::underbar`. -/
def Lexer.underbar (code : List Char) : Option Lexed :=
  Lexer.char code '_' Token.Underbar

/-- Matcher `Lexer::apostrophe` (the target is the apostrophe character, U+0027). -/
def Lexer.apostrophe (code : List Char) : Option Lexed :=
  Lexer.char code (Char.ofNat 39) Token.Apostrophe

/-- Matcher `Lexer::question`. -/
def Lexer.question (code : List Char) : Option Lexed :=
  Lexer.char code '?' Token.Question

/-- Matcher `Lexer::equals`. -/
def Lexer.equals (code : List Char) : Option Lexed :=
  Lexer.char code '=' Token.Equals

/-- Rust `Lexer::number`: find the character position of the first
non-numeric character (byte length of the whole slice when all
characters are numeric), reject an empty prefix, slice the string at
that BYTE index (`&code[..index]` / `&code[index..]` — a panic when the
index is not a character boundary), and parse the first part as `i32`. -/
def Lexer.number (code : List Char) : PRes (Option Lexed) :=
  let index :=
    match posNonNumeric code with
    | some i => i
    | none => byteLen code
  if index = 0 then PRes.ok none
  else
    match splitAtByte index code with
    | none => PRes.panic
    | some (num, rest) =>
      match parseI32 num with
      | some n => PRes.ok (some ⟨Token.Number n, rest⟩)
      | none => PRes.ok none

/-- The matcher table of `Lexer::lex`, in source order; `number` is kept
out of the table because it is the only matcher that can panic. -/
def Lexer.charMatchers : List (List Char → Option Lexed) :=
  [Lexer.l_paren, Lexer.r_paren, Lexer.l_brace, Lexer.r_brace,
   Lexer.l_angle_bracket, Lexer.r_angle_bracket,
   Lexer.plus, Lexer.minus, Lexer.asterisk, Lexer.slash,
   Lexer.ban, Lexer.underbar, Lexer.apostrophe, Lexer.question, Lexer.equals]

/-- Rust `Lexer::lex`: try every matcher in order on the whitespace-trimmed
slice (the source re-trims inside the closure before each attempt, which
is the same trimmed slice every time) and take the first success;
`number` is tried last. -/
def Lexer.lex (code : List Char) : PRes (Option Lexed) :=
  match Lexer.charMatchers.findSome? (fun f => f (trimStart code)) with
  | some lexed => PRes.ok (some lexed)
  | none => Lexer.number (trimStart code)

/-- Rust `Lexer::new`: run one scan step; a produced token becomes the
initial lookahead, otherwise the state is (no lookahead, empty slice). -/
def Lexer.new (code : List Char) : PRes Lexer :=
  match Lexer.lex code with
  | PRes.panic => PRes.panic
  | PRes.ok (some lexed) => PRes.ok ⟨some lexed.token, lexed.rest⟩
  | PRes.ok none => PRes.ok ⟨none, []⟩

/-- Rust `<Lexer as Iterator>::next`: return the current lookahead and refill
it with one scan step on the remaining slice; on a failed step the
lookahead becomes `none` and the slice becomes empty. -/
def Lexer.next (l : Lexer) : PRes (Option Token × Lexer) :=
  match Lexer.lex l.code with
  | PRes.panic => PRes.panic
  | PRes.ok (some lexed) => PRes.ok (l.current, ⟨some lexed.token, lexed.rest⟩)
  | PRes.ok none => PRes.ok (l.current, ⟨none, []⟩)

/-- Modelled from the spec: `peek` "returns a read-only view of the
current lookahead without advancing".  The repository has no peek of its
own (its tests use the standard peekable iterator adapter); the spec's
lookahead slot is the `current` field. -/
def Lexer.peek (l : Lexer) : Option Token :=
  l.current

/-- Result of the `(n+1)`-th `next` call starting from state `l`
(propagating a panic of any earlier call). -/
def iterNext : Lexer → Nat → PRes (Option Token × Lexer)
  | l, 0 => Lexer.next l
  | l, n + 1 =>
    match Lexer.next l with
    | PRes.panic => PRes.panic
    | PRes.ok (_, l2) => iterNext l2 n

/-- Repeated scan steps with explicit fuel: the token sequence obtained
by running `Lexer::lex` until it fails (or panics). -/
def scanAllFuel : Nat → List Char → PRes (List Token)
  | 0, _ => PRes.ok []
  | fuel + 1, code =>
    match Lexer.lex code with
    | PRes.panic => PRes.panic
    | PRes.ok none => PRes.ok []
    | PRes.ok (some lexed) =>
      match scanAllFuel fuel lexed.rest with
      | PRes.panic => PRes.panic
      | PRes.ok ts => PRes.ok (lexed.token :: ts)

/-- The full token sequence of an input: `code.length + 1` scan steps
always suffice, because every successful step consumes at least one
character (proved below). -/
def scanAll (code : List Char) : PRes (List Token) :=
  scanAllFuel (code.length + 1) code

/-- Scanner states reachable through the public interface: a freshly
constructed scanner, or the successor state of a reachable state after
one (non-panicking) `next` call. -/
inductive Reach : Lexer → Prop where
  | init : ∀ s l, Lexer.new s = PRes.ok l → Reach l
  | step : ∀ l t l2, Reach l → Lexer.next l = PRes.ok (t, l2) → Reach l2

/-! ## Character-class facts -/

theorem digit_toNat {c : Char} (h : isAsciiDigit c = true) :
    0x30 ≤ c.toNat ∧ c.toNat ≤ 0x39 := by
  simpa [isAsciiDigit] using h

theorem digit_ne_target (c : Char) (h : isAsciiDigit c = true) (t : Char)
    (ht : t.toNat < 0x30 ∨ 0x39 < t.toNat) : c ≠ t := by
  intro e
  have hb := digit_toNat h
  rw [e] at hb
  omega

theorem digit_not_ws {c : Char} (h : isAsciiDigit c = true) :
    isWhitespaceRust c = false := by
  have hb := digit_toNat h
  rw [← Bool.not_eq_true]
  intro hw
  simp only [isWhitespaceRust, List.any_eq_true, Bool.and_eq_true,
    decide_eq_true_eq] at hw
  obtain ⟨p, hp, h1, h2⟩ := hw
  have hr : ∀ q ∈ wsRanges, q.2 < 0x30 ∨ 0x39 < q.1 := by decide
  have := hr p hp
  omega

theorem digit_numeric {c : Char} (h : isAsciiDigit c = true) :
    isNumericRust c = true := by
  have hb := digit_toNat h
  simp only [isNumericRust, List.any_eq_true, Bool.and_eq_true, decide_eq_true_eq]
  exact ⟨(0x30, 0x39), by decide, hb.1, hb.2⟩

set_option maxRecDepth 8192 in
theorem numeric_classify {c : Char} (h : isNumericRust c = true) :
    isAsciiDigit c = true ∨ 0x80 ≤ c.toNat := by
  simp only [isNumericRust, List.any_eq_true, Bool.and_eq_true,
    decide_eq_true_eq] at h
  obtain ⟨p, hp, h1, h2⟩ := h
  have hr : ∀ q ∈ numericRanges, (0x30 ≤ q.1 ∧ q.2 ≤ 0x39) ∨ 0x80 ≤ q.1 := by decide
  rcases hr p hp with ⟨a, b⟩ | hge
  · left
    simp only [isAsciiDigit, Bool.and_eq_true, decide_eq_true_eq]
    omega
  · right
    omega

theorem lenUtf8_pos (c : Char) : 1 ≤ lenUtf8 c := by
  unfold lenUtf8
  split <;> [omega; split <;> [omega; split <;> omega]]

theorem digit_lenUtf8 {c : Char} (h : isAsciiDigit c = true) : lenUtf8 c = 1 := by
  have hb := digit_toNat h
  unfold lenUtf8
  rw [if_pos]
  omega

theorem nonascii_lenUtf8 {c : Char} (h : 0x80 ≤ c.toNat) : 2 ≤ lenUtf8 c := by
  unfold lenUtf8
  rw [if_neg (by omega)]
  split <;> [omega; split <;> omega]

theorem numeric_not_sign {c : Char} (h : isNumericRust c = true)
    (hd : isAsciiDigit c = false) : 0x80 ≤ c.toNat := by
  rcases numeric_classify h with h1 | h1
  · rw [hd] at h1
    exact absurd h1 (by simp)
  · exact h1

/-! ## Byte-slicing and list facts -/

theorem byteLen_nil : byteLen [] = 0 := rfl

theorem byteLen_cons (c : Char) (cs : List Char) :
    byteLen (c :: cs) = lenUtf8 c + byteLen cs := by
  simp [byteLen]

theorem byteLen_ascii : ∀ (s : List Char), (∀ c ∈ s, lenUtf8 c = 1) →
    byteLen s = s.length
  | [], _ => rfl
  | c :: cs, h => by
    rw [byteLen_cons, h c (by simp), byteLen_ascii cs (fun x hx => h x (by simp [hx]))]
    simp [Nat.add_comm]

theorem splitAtByte_zero (s : List Char) : splitAtByte 0 s = some ([], s) := by
  rw [splitAtByte]

theorem splitAtByte_ascii : ∀ (a : List Char) (i : Nat) (r : List Char),
    (∀ c ∈ a, lenUtf8 c = 1) →
    splitAtByte (a.length + i) (a ++ r) =
      (splitAtByte i r).map (fun q => (a ++ q.1, q.2))
  | [], i, r, _ => by
    cases h : splitAtByte i r <;> simp [h]
  | c :: a, i, r, h => by
    have hc : lenUtf8 c = 1 := h c (by simp)
    have ha : ∀ x ∈ a, lenUtf8 x = 1 := fun x hx => h x (by simp [hx])
    have hlen : (c :: a).length + i = (a.length + i) + 1 := by
      simp [List.length_cons]
      omega
    rw [hlen]
    show splitAtByte ((a.length + i) + 1) (c :: (a ++ r)) = _
    rw [splitAtByte, if_pos (by omega)]
    have hsub : a.length + i + 1 - lenUtf8 c = a.length + i := by omega
    rw [hsub, splitAtByte_ascii a i r ha]
    cases splitAtByte i r <;> simp

theorem splitAtByte_byteLen : ∀ (s : List Char), splitAtByte (byteLen s) s = some (s, [])
  | [] => rfl
  | c :: cs => by
    have h1 := lenUtf8_pos c
    have hk : byteLen (c :: cs) = (lenUtf8 c + byteLen cs - 1) + 1 := by
      rw [byteLen_cons]
      omega
    rw [hk, splitAtByte, if_pos (by omega)]
    have hsub : lenUtf8 c + byteLen cs - 1 + 1 - lenUtf8 c = byteLen cs := by omega
    rw [hsub, splitAtByte_byteLen cs]
    simp

theorem splitAtByte_some : ∀ (i : Nat) (s : List Char) (a b : List Char),
    splitAtByte i s = some (a, b) → s = a ++ b ∧ byteLen a = i
  | 0, s, a, b, h => by
    rw [splitAtByte_zero] at h
    injection h with h
    injection h with h1 h2
    subst h1; subst h2
    exact ⟨rfl, rfl⟩
  | i + 1, [], a, b, h => by
    rw [splitAtByte] at h
    exact Option.noConfusion h
  | i + 1, c :: cs, a, b, h => by
    rw [splitAtByte] at h
    by_cases hle : lenUtf8 c ≤ i + 1
    · rw [if_pos hle] at h
      cases hs : splitAtByte (i + 1 - lenUtf8 c) cs with
      | none => rw [hs] at h; exact absurd h (by simp)
      | some q =>
        rw [hs] at h
        have h2 : some ((fun q => (c :: q.1, q.2)) q) = some (a, b) := h
        injection h2 with h
        obtain ⟨q1, q2⟩ := q
        have h1 : c :: q1 = a := congrArg Prod.fst h
        have h2 : q2 = b := congrArg Prod.snd h
        obtain ⟨hs1, hs2⟩ := splitAtByte_some (i + 1 - lenUtf8 c) cs q1 q2 hs
        subst h1; subst h2
        constructor
        · rw [hs1]; rfl
        · rw [byteLen_cons, hs2]; omega
    · rw [if_neg hle] at h
      exact absurd h (by simp)

theorem splitAtByte_rest_lt (i : Nat) (s a b : List Char)
    (h : splitAtByte i s = some (a, b)) (hi : i ≠ 0) :
    b.length < s.length := by
  obtain ⟨h1, h2⟩ := splitAtByte_some i s a b h
  have ha : a ≠ [] := by
    intro e
    subst e
    exact hi (by rw [← h2]; rfl)
  rw [h1, List.length_append]
  cases a with
  | nil => exact absurd rfl ha
  | cons x xs =>
    simp only [List.length_cons]
    omega

theorem posNonNumeric_all : ∀ (s : List Char),
    (∀ c ∈ s, isNumericRust c = true) → posNonNumeric s = none
  | [], _ => rfl
  | c :: cs, h => by
    rw [posNonNumeric, if_pos (h c (by simp)),
      posNonNumeric_all cs (fun x hx => h x (by simp [hx]))]
    rfl

theorem posNonNumeric_before : ∀ (p : List Char) (c : Char) (r : List Char),
    (∀ x ∈ p, isNumericRust x = true) → isNumericRust c = false →
    posNonNumeric (p ++ c :: r) = some p.length
  | [], c, r, _, hc => by
    rw [List.nil_append, posNonNumeric, if_neg (by rw [hc]; simp)]
    rfl
  | x :: p, c, r, hp, hc => by
    rw [List.cons_append, posNonNumeric, if_pos (hp x (by simp)),
      posNonNumeric_before p c r (fun y hy => hp y (by simp [hy])) hc]
    rfl

theorem length_dropWhile_le (p : Char → Bool) : ∀ (s : List Char),
    (s.dropWhile p).length ≤ s.length
  | [] => Nat.le_refl _
  | c :: cs => by
    rw [List.dropWhile_cons]
    by_cases h : p c = true
    · rw [if_pos h]
      exact Nat.le_trans (length_dropWhile_le p cs) (by simp)
    · rw [if_neg h]

theorem findSome?_eq_some_ex {α β : Type} : ∀ (L : List α) (g : α → Option β) (b : β),
    L.findSome? g = some b → ∃ a ∈ L, g a = some b
  | [], g, b, h => by
    rw [List.findSome?_nil] at h
    exact absurd h (by simp)
  | a :: L, g, b, h => by
    rw [List.findSome?_cons] at h
    cases hg : g a with
    | some b2 =>
      rw [hg] at h
      exact ⟨a, by simp, hg.trans h⟩
    | none =>
      rw [hg] at h
      obtain ⟨x, hx, hgx⟩ := findSome?_eq_some_ex L g b h
      exact ⟨x, by simp [hx], hgx⟩

/-! ## Parsing and matcher facts -/

theorem dropWhile_head_false (p : Char → Bool) : ∀ (s : List Char) (c : Char) (r : List Char),
    s.dropWhile p = c :: r → p c = false
  | [], c, r, h => by
    rw [List.dropWhile_nil] at h
    exact List.noConfusion h
  | x :: xs, c, r, h => by
    rw [List.dropWhile_cons] at h
    by_cases hx : p x = true
    · rw [if_pos hx] at h
      exact dropWhile_head_false p xs c r h
    · rw [if_neg hx] at h
      injection h with h1 _
      subst h1
      rw [← Bool.not_eq_true]
      exact hx

theorem headNonNumeric_dropWhile (s : List Char) :
    headNonNumeric (s.dropWhile isNumericRust) = true := by
  cases h : s.dropWhile isNumericRust with
  | nil => rfl
  | cons c r =>
    have hc := dropWhile_head_false isNumericRust s c r h
    rw [headNonNumeric]
    simp [hc]

theorem digitsValOpt_digits (s : List Char) (hne : s ≠ [])
    (hall : ∀ c ∈ s, isAsciiDigit c = true) :
    digitsValOpt s = some (digitsVal s) := by
  cases s with
  | nil => exact absurd rfl hne
  | cons d s2 =>
    rw [digitsValOpt, if_neg (by simp), if_pos]
    rw [List.all_eq_true]
    exact hall

theorem digitsValOpt_bad (s : List Char) (d : Char) (hmem : d ∈ s)
    (hd : isAsciiDigit d = false) : digitsValOpt s = none := by
  cases s with
  | nil => cases hmem
  | cons x xs =>
    have hfalse : (x :: xs).all isAsciiDigit = false :=
      List.all_eq_false.mpr ⟨d, hmem, by simp [hd]⟩
    rw [digitsValOpt, if_neg (by simp), if_neg (by rw [hfalse]; simp)]

theorem parseI32_digits (D : List Char) (hne : D ≠ [])
    (hall : ∀ c ∈ D, isAsciiDigit c = true) :
    parseI32 D = if digitsVal D ≤ 2147483647
      then some ((digitsVal D : Int)) else none := by
  cases D with
  | nil => exact absurd rfl hne
  | cons d D2 =>
    have hd : isAsciiDigit d = true := hall d (by simp)
    have hdp : d ≠ '+' := digit_ne_target d hd '+' (by decide)
    have hdm : d ≠ '-' := digit_ne_target d hd '-' (by decide)
    have hdv : digitsValOpt (d :: D2) = some (digitsVal (d :: D2)) :=
      digitsValOpt_digits (d :: D2) (by simp) hall
    unfold parseI32
    split
    · next rest heq =>
      injection heq with h1 _
      exact absurd h1 hdp
    · next rest heq =>
      injection heq with h1 _
      exact absurd h1 hdm
    · rw [hdv]
      rfl

theorem parseI32_bad (num : List Char) (d : Char) (hmem : d ∈ num)
    (hd : isAsciiDigit d = false) (hn : isNumericRust d = true) :
    parseI32 num = none := by
  have h80 : 0x80 ≤ d.toNat := numeric_not_sign hn hd
  have hdp : d ≠ '+' := by
    intro e
    rw [e] at h80
    exact absurd h80 (by decide)
  have hdm : d ≠ '-' := by
    intro e
    rw [e] at h80
    exact absurd h80 (by decide)
  cases num with
  | nil => cases hmem
  | cons x xs =>
    unfold parseI32
    split
    · next rest heq =>
      injection heq with h1 h2
      subst h1
      subst h2
      have hr : d ∈ xs := by
        cases hmem with
        | head => exact absurd rfl hdp
        | tail _ hm => exact hm
      rw [digitsValOpt_bad xs d hr hd]
      rfl
    · next rest heq =>
      injection heq with h1 h2
      subst h1
      subst h2
      have hr : d ∈ xs := by
        cases hmem with
        | head => exact absurd rfl hdm
        | tail _ hm => exact hm
      rw [digitsValOpt_bad xs d hr hd]
      rfl
    · rw [digitsValOpt_bad (x :: xs) d hmem hd]
      rfl

theorem trimStart_cons_not_ws {c : Char} (cs : List Char)
    (h : isWhitespaceRust c = false) : trimStart (c :: cs) = c :: cs := by
  rw [trimStart, List.dropWhile_cons, if_neg (by rw [h]; simp)]

theorem matchers_digit_none {c : Char} (cs : List Char) (h : isAsciiDigit c = true) :
    Lexer.charMatchers.findSome? (fun f => f (c :: cs)) = none := by
  have h1 := digit_ne_target c h '(' (by decide)
  have h2 := digit_ne_target c h ')' (by decide)
  have h3 := digit_ne_target c h '[' (by decide)
  have h4 := digit_ne_target c h ']' (by decide)
  have h5 := digit_ne_target c h '<' (by decide)
  have h6 := digit_ne_target c h '>' (by decide)
  have h7 := digit_ne_target c h '+' (by decide)
  have h8 := digit_ne_target c h '-' (by decide)
  have h9 := digit_ne_target c h '*' (by decide)
  have h10 := digit_ne_target c h '/' (by decide)
  have h11 := digit_ne_target c h '!' (by decide)
  have h12 := digit_ne_target c h '_' (by decide)
  have h13 := digit_ne_target c h (Char.ofNat 39) (by decide)
  have h14 := digit_ne_target c h '?' (by decide)
  have h15 := digit_ne_target c h '=' (by decide)
  simp [Lexer.charMatchers, List.findSome?_cons, Lexer.l_paren, Lexer.r_paren,
    Lexer.l_brace, Lexer.r_brace, Lexer.l_angle_bracket, Lexer.r_angle_bracket,
    Lexer.plus, Lexer.minus, Lexer.asterisk, Lexer.slash, Lexer.ban,
    Lexer.underbar, Lexer.apostrophe, Lexer.question, Lexer.equals, Lexer.char,
    h1, h2, h3, h4, h5, h6, h7, h8, h9, h10, h11, h12, h13, h14, h15]

theorem number_eq (code : List Char) :
    Lexer.number code =
      (if (match posNonNumeric code with
           | some i => i
           | none => byteLen code) = 0
       then PRes.ok none
       else
         match splitAtByte
             (match posNonNumeric code with
              | some i => i
              | none => byteLen code) code with
         | none => PRes.panic
         | some (num, rest) =>
           match parseI32 num with
           | some n => PRes.ok (some ⟨Token.Number n, rest⟩)
           | none => PRes.ok none) := rfl

theorem number_digits (D r : List Char) (hne : D ≠ [])
    (hall : ∀ c ∈ D, isAsciiDigit c = true) (hr : headNonNumeric r = true) :
    Lexer.number (D ++ r) =
      if digitsVal D ≤ 2147483647
      then PRes.ok (some ⟨Token.Number (digitsVal D), r⟩)
      else PRes.ok none := by
  have hnum : ∀ c ∈ D, isNumericRust c = true := fun c hc => digit_numeric (hall c hc)
  have hlen1 : ∀ c ∈ D, lenUtf8 c = 1 := fun c hc => digit_lenUtf8 (hall c hc)
  have hidx : (match posNonNumeric (D ++ r) with
               | some i => i
               | none => byteLen (D ++ r)) = D.length := by
    cases r with
    | nil =>
      rw [List.append_nil, posNonNumeric_all D hnum]
      exact byteLen_ascii D hlen1
    | cons c r2 =>
      have hc : isNumericRust c = false := by
        rw [headNonNumeric] at hr
        simpa using hr
      rw [posNonNumeric_before D c r2 hnum hc]
  have hne2 : ¬(D.length = 0) := by
    cases D with
    | nil => exact absurd rfl hne
    | cons x xs => simp
  have hsplit : splitAtByte D.length (D ++ r) = some (D, r) := by
    have hs := splitAtByte_ascii D 0 r hlen1
    rw [Nat.add_zero, splitAtByte_zero] at hs
    rw [hs]
    simp
  rw [number_eq, hidx, if_neg hne2, hsplit]
  show (match parseI32 D with
        | some n => PRes.ok (some ⟨Token.Number n, r⟩)
        | none => PRes.ok none : PRes (Option Lexed)) = _
  rw [parseI32_digits D hne hall]
  by_cases hv : digitsVal D ≤ 2147483647
  · rw [if_pos hv, if_pos hv]
  · rw [if_neg hv, if_neg hv]

theorem lex_digit_head {c : Char} (cs : List Char) (h : isAsciiDigit c = true) :
    Lexer.lex (c :: cs) = Lexer.number (c :: cs) := by
  have ht : trimStart (c :: cs) = c :: cs := trimStart_cons_not_ws cs (digit_not_ws h)
  unfold Lexer.lex
  simp only [ht]
  rw [matchers_digit_none cs h]

theorem lex_digits (D r : List Char) (hne : D ≠ [])
    (hall : ∀ c ∈ D, isAsciiDigit c = true) (hr : headNonNumeric r = true) :
    Lexer.lex (D ++ r) =
      if digitsVal D ≤ 2147483647
      then PRes.ok (some ⟨Token.Number (digitsVal D), r⟩)
      else PRes.ok none := by
  cases D with
  | nil => exact absurd rfl hne
  | cons d D2 =>
    rw [List.cons_append, lex_digit_head (D2 ++ r) (hall d (by simp)),
      ← List.cons_append, number_digits (d :: D2) r hne hall hr]

/-! ## Scanner-level facts -/

theorem lex_nil : Lexer.lex [] = PRes.ok none := rfl

theorem next_exhausted : Lexer.next ⟨none, []⟩ = PRes.ok (none, ⟨none, []⟩) := rfl

theorem iterNext_exhausted : ∀ (n : Nat),
    iterNext ⟨none, []⟩ n = PRes.ok (none, ⟨none, []⟩)
  | 0 => rfl
  | n + 1 => iterNext_exhausted n

theorem lookahead_inv (l : Lexer) (hr : Reach l) (hc : l.current = none) :
    l.code = [] := by
  cases hr with
  | init s l2 h =>
    unfold Lexer.new at h
    cases hx : Lexer.lex s with
    | panic =>
      rw [hx] at h
      exact PRes.noConfusion h
    | ok o =>
      cases o with
      | some lexed =>
        rw [hx] at h
        injection h with h2
        rw [← h2] at hc
        simp at hc
      | none =>
        rw [hx] at h
        injection h with h2
        rw [← h2]
  | step l2 t l3 hr2 h =>
    unfold Lexer.next at h
    cases hx : Lexer.lex l2.code with
    | panic =>
      rw [hx] at h
      exact PRes.noConfusion h
    | ok o =>
      cases o with
      | some lexed =>
        rw [hx] at h
        injection h with h2
        have h3 : (⟨some lexed.token, lexed.rest⟩ : Lexer) = l := congrArg Prod.snd h2
        rw [← h3] at hc
        simp at hc
      | none =>
        rw [hx] at h
        injection h with h2
        have h3 : (⟨none, []⟩ : Lexer) = l := congrArg Prod.snd h2
        rw [← h3]

theorem char_rest_lt (t : List Char) (tg : Char) (tok : Token) (lx : Lexed)
    (h : Lexer.char t tg tok = some lx) : lx.rest.length < t.length := by
  cases t with
  | nil => simp [Lexer.char] at h
  | cons c cs =>
    by_cases hc : c = tg
    · have h2 : some (⟨tok, cs⟩ : Lexed) = some lx := by
        rw [← h]
        simp [Lexer.char, hc]
      injection h2 with h3
      rw [← h3]
      simp
    · simp [Lexer.char, hc] at h

theorem matcher_rest_lt (f : List Char → Option Lexed) (hf : f ∈ Lexer.charMatchers)
    (t : List Char) (lx : Lexed) (h : f t = some lx) : lx.rest.length < t.length := by
  simp only [Lexer.charMatchers, List.mem_cons, List.not_mem_nil, or_false] at hf
  rcases hf with rfl | rfl | rfl | rfl | rfl | rfl | rfl | rfl | rfl | rfl | rfl | rfl | rfl | rfl | rfl <;>
    exact char_rest_lt t _ _ lx h

theorem trim_length_le (s : List Char) : (trimStart s).length ≤ s.length := by
  rw [trimStart]
  exact length_dropWhile_le isWhitespaceRust s

theorem number_rest_lt (code : List Char) (lx : Lexed)
    (h : Lexer.number code = PRes.ok (some lx)) : lx.rest.length < code.length := by
  rw [number_eq] at h
  by_cases hz : (match posNonNumeric code with
                 | some i => i
                 | none => byteLen code) = 0
  · rw [if_pos hz] at h
    injection h with h2
    exact Option.noConfusion h2
  · rw [if_neg hz] at h
    cases hs : splitAtByte (match posNonNumeric code with
                            | some i => i
                            | none => byteLen code) code with
    | none =>
      rw [hs] at h
      exact PRes.noConfusion h
    | some q =>
      obtain ⟨num, rest⟩ := q
      rw [hs] at h
      have h1 : (match parseI32 num with
                 | some n => PRes.ok (some ⟨Token.Number n, rest⟩)
                 | none => PRes.ok none : PRes (Option Lexed)) = PRes.ok (some lx) := h
      cases hp : parseI32 num with
      | none =>
        rw [hp] at h1
        injection h1 with h2
        exact Option.noConfusion h2
      | some n =>
        rw [hp] at h1
        have h2 : PRes.ok (some (⟨Token.Number n, rest⟩ : Lexed)) = PRes.ok (some lx) := h1
        injection h2 with h3
        injection h3 with h4
        rw [← h4]
        show rest.length < code.length
        exact splitAtByte_rest_lt _ code num rest hs hz

theorem lex_rest_lt (code : List Char) (lx : Lexed)
    (h : Lexer.lex code = PRes.ok (some lx)) : lx.rest.length < code.length := by
  unfold Lexer.lex at h
  cases hfs : Lexer.charMatchers.findSome? (fun f => f (trimStart code)) with
  | some lexed =>
    rw [hfs] at h
    injection h with h2
    injection h2 with h3
    subst h3
    obtain ⟨f, hfmem, hffound⟩ := findSome?_eq_some_ex Lexer.charMatchers _ lexed hfs
    have hlt := matcher_rest_lt f hfmem (trimStart code) lexed hffound
    exact Nat.lt_of_lt_of_le hlt (trim_length_le code)
  | none =>
    rw [hfs] at h
    have hlt := number_rest_lt (trimStart code) lx h
    exact Nat.lt_of_lt_of_le hlt (trim_length_le code)

theorem scanAllFuel_stable : ∀ (n m : Nat) (code : List Char),
    code.length < n → code.length < m → scanAllFuel n code = scanAllFuel m code
  | 0, _, _, hn, _ => absurd hn (by omega)
  | _ + 1, 0, _, _, hm => absurd hm (by omega)
  | n + 1, m + 1, code, hn, hm => by
    rw [scanAllFuel, scanAllFuel]
    cases hx : Lexer.lex code with
    | panic => rfl
    | ok o =>
      cases o with
      | none => rfl
      | some lexed =>
        have hlt := lex_rest_lt code lexed hx
        show (match scanAllFuel n lexed.rest with
              | PRes.panic => PRes.panic
              | PRes.ok ts => PRes.ok (lexed.token :: ts) : PRes (List Token)) =
            (match scanAllFuel m lexed.rest with
             | PRes.panic => PRes.panic
             | PRes.ok ts => PRes.ok (lexed.token :: ts))
        rw [scanAllFuel_stable n m lexed.rest (by omega) (by omega)]

theorem scanAllFuel_len : ∀ (n : Nat) (code : List Char) (ts : List Token),
    scanAllFuel n code = PRes.ok ts → code.length < n → ts.length ≤ code.length
  | 0, _, _, _, hn => absurd hn (by omega)
  | n + 1, code, ts, h, _ => by
    rw [scanAllFuel] at h
    cases hx : Lexer.lex code with
    | panic =>
      rw [hx] at h
      exact PRes.noConfusion h
    | ok o =>
      cases o with
      | none =>
        rw [hx] at h
        have h2 : PRes.ok ([] : List Token) = PRes.ok ts := h
        injection h2 with h3
        rw [← h3]
        simp
      | some lexed =>
        rw [hx] at h
        have h1 : (match scanAllFuel n lexed.rest with
                   | PRes.panic => PRes.panic
                   | PRes.ok ts => PRes.ok (lexed.token :: ts) : PRes (List Token)) =
            PRes.ok ts := h
        cases hrec : scanAllFuel n lexed.rest with
        | panic =>
          rw [hrec] at h1
          exact PRes.noConfusion h1
        | ok ts2 =>
          rw [hrec] at h1
          have h2 : PRes.ok (lexed.token :: ts2) = PRes.ok ts := h1
          injection h2 with h3
          have hlt := lex_rest_lt code lexed hx
          have hrec2 := scanAllFuel_len n lexed.rest ts2 hrec (by omega)
          rw [← h3]
          simp only [List.length_cons]
          omega

/-! ## The number matcher on arbitrary numeric prefixes -/

theorem byteLen_append (x y : List Char) :
    byteLen (x ++ y) = byteLen x + byteLen y := by
  simp [byteLen, List.map_append, List.sum_append]

theorem number_of_empty_run (s : List Char) (h : s.takeWhile isNumericRust = []) :
    Lexer.number s = PRes.ok none := by
  cases s with
  | nil => rfl
  | cons c cs =>
    have hc : isNumericRust c = false := by
      cases hnc : isNumericRust c with
      | false => rfl
      | true =>
        rw [List.takeWhile_cons, if_pos hnc] at h
        exact List.noConfusion h
    rw [number_eq]
    have hp : posNonNumeric (c :: cs) = some 0 := by
      rw [posNonNumeric, if_neg (by rw [hc]; simp)]
    rw [hp]
    rfl

theorem number_no_match_of_bad (a : List Char) (d : Char) (b r : List Char)
    (ha : ∀ x ∈ a, isAsciiDigit x = true)
    (hd1 : isAsciiDigit d = false) (hd2 : isNumericRust d = true)
    (hb : ∀ x ∈ b, isNumericRust x = true)
    (hr : headNonNumeric r = true) :
    Lexer.number ((a ++ d :: b) ++ r) = PRes.panic ∨
    Lexer.number ((a ++ d :: b) ++ r) = PRes.ok none := by
  have ha_num : ∀ x ∈ a, isNumericRust x = true := fun x hx => digit_numeric (ha x hx)
  have hp_num : ∀ x ∈ (a ++ d :: b), isNumericRust x = true := by
    intro x hx
    rcases List.mem_append.mp hx with h1 | h1
    · exact ha_num x h1
    · rcases List.mem_cons.mp h1 with h2 | h2
      · rw [h2]
        exact hd2
      · exact hb x h2
  have ha_len : ∀ x ∈ a, lenUtf8 x = 1 := fun x hx => digit_lenUtf8 (ha x hx)
  have hd_len : 2 ≤ lenUtf8 d := nonascii_lenUtf8 (numeric_not_sign hd2 hd1)
  cases r with
  | nil =>
    right
    rw [List.append_nil, number_eq, posNonNumeric_all (a ++ d :: b) hp_num]
    have hbz : ¬ (byteLen (a ++ d :: b) = 0) := by
      rw [byteLen_append, byteLen_cons]
      omega
    rw [if_neg hbz, splitAtByte_byteLen]
    have hparse : parseI32 (a ++ d :: b) = none :=
      parseI32_bad (a ++ d :: b) d (by simp) hd1 hd2
    show (match parseI32 (a ++ d :: b) with
          | some n => PRes.ok (some ⟨Token.Number n, ([] : List Char)⟩)
          | none => PRes.ok none : PRes (Option Lexed)) = PRes.ok none
    rw [hparse]
  | cons c r2 =>
    have hc : isNumericRust c = false := by
      rw [headNonNumeric] at hr
      simpa using hr
    have hlen_eq : (a ++ d :: b).length = a.length + (b.length + 1) := by
      rw [List.length_append, List.length_cons]
    have hiz : ¬ ((a ++ d :: b).length = 0) := by
      rw [hlen_eq]
      omega
    have hnum : Lexer.number ((a ++ d :: b) ++ c :: r2) =
        (match splitAtByte (a.length + (b.length + 1)) ((a ++ d :: b) ++ c :: r2) with
         | none => PRes.panic
         | some (num, rest) =>
           match parseI32 num with
           | some n => PRes.ok (some ⟨Token.Number n, rest⟩)
           | none => PRes.ok none : PRes (Option Lexed)) := by
      rw [number_eq, posNonNumeric_before (a ++ d :: b) c r2 hp_num hc]
      show (if (a ++ d :: b).length = 0 then PRes.ok none
            else match splitAtByte ((a ++ d :: b).length) ((a ++ d :: b) ++ c :: r2) with
                 | none => PRes.panic
                 | some (num, rest) =>
                   match parseI32 num with
                   | some n => PRes.ok (some ⟨Token.Number n, rest⟩)
                   | none => PRes.ok none : PRes (Option Lexed)) = _
      rw [if_neg hiz, hlen_eq]
    have hassoc : (a ++ d :: b) ++ c :: r2 = a ++ (d :: (b ++ c :: r2)) := by
      rw [List.append_assoc, List.cons_append]
    have hsplit2 : splitAtByte (a.length + (b.length + 1)) ((a ++ d :: b) ++ c :: r2) =
        (splitAtByte (b.length + 1) (d :: (b ++ c :: r2))).map
          (fun q => (a ++ q.1, q.2)) := by
      rw [hassoc]
      exact splitAtByte_ascii a (b.length + 1) (d :: (b ++ c :: r2)) ha_len
    rw [hsplit2] at hnum
    by_cases hle : lenUtf8 d ≤ b.length + 1
    · cases hinner : splitAtByte (b.length + 1 - lenUtf8 d) (b ++ c :: r2) with
      | none =>
        have hstep : splitAtByte (b.length + 1) (d :: (b ++ c :: r2)) = none := by
          rw [splitAtByte, if_pos hle, hinner]
          rfl
        rw [hstep] at hnum
        left
        exact hnum
      | some q =>
        have hstep : splitAtByte (b.length + 1) (d :: (b ++ c :: r2)) =
            some (d :: q.1, q.2) := by
          rw [splitAtByte, if_pos hle, hinner]
          rfl
        rw [hstep] at hnum
        right
        have hparse : parseI32 (a ++ d :: q.1) = none :=
          parseI32_bad (a ++ d :: q.1) d (by simp) hd1 hd2
        have hnum2 : Lexer.number ((a ++ d :: b) ++ c :: r2) =
            (match parseI32 (a ++ d :: q.1) with
             | some n => PRes.ok (some ⟨Token.Number n, q.2⟩)
             | none => PRes.ok none : PRes (Option Lexed)) := hnum
        rw [hparse] at hnum2
        exact hnum2
    · have hstep : splitAtByte (b.length + 1) (d :: (b ++ c :: r2)) = none := by
        rw [splitAtByte, if_neg hle]
      rw [hstep] at hnum
      left
      exact hnum

theorem number_of_bad_run (s p r : List Char) (hsp : s = p ++ r)
    (hp : ∀ x ∈ p, isNumericRust x = true)
    (hnotall : p.all isAsciiDigit = false)
    (hr : headNonNumeric r = true) :
    Lexer.number s = PRes.panic ∨ Lexer.number s = PRes.ok none := by
  subst hsp
  have hsplit_p : p.takeWhile isAsciiDigit ++ p.dropWhile isAsciiDigit = p :=
    List.takeWhile_append_dropWhile _ _
  cases hdw : p.dropWhile isAsciiDigit with
  | nil =>
    exfalso
    rw [hdw, List.append_nil] at hsplit_p
    have hall2 : p.all isAsciiDigit = true := by
      rw [List.all_eq_true]
      intro x hx
      rw [← hsplit_p] at hx
      exact List.mem_takeWhile_imp hx
    rw [hall2] at hnotall
    exact Bool.noConfusion hnotall
  | cons d b =>
    have hpd : p = p.takeWhile isAsciiDigit ++ d :: b := by
      conv_lhs => rw [← hsplit_p]
      rw [hdw]
    have ha : ∀ x ∈ p.takeWhile isAsciiDigit, isAsciiDigit x = true :=
      fun x hx => List.mem_takeWhile_imp hx
    have hd1 : isAsciiDigit d = false := dropWhile_head_false isAsciiDigit p d b hdw
    have hd2 : isNumericRust d = true := hp d (by rw [hpd]; simp)
    have hb : ∀ x ∈ b, isNumericRust x = true :=
      fun x hx => hp x (by rw [hpd]; simp [hx])
    rw [hpd]
    exact number_no_match_of_bad (p.takeWhile isAsciiDigit) d b r ha hd1 hd2 hb hr

/-! ## Claim theorems -/

/-- Claim C1 (counterexample): the claim as stated is false.  On the input
"3²" the longest prefix of decimal digits is "3", so the claim demands
the match `Number 3` with remaining slice "²"; the code instead takes
the longest prefix of Rust-numeric characters ("3²" — '²' is Unicode
numeric), fails to parse it as `i32`, and reports no match. -/
theorem number_decimal_prefix_counterexample :
    Lexer.number ['3', '²'] = PRes.ok none ∧
    Lexer.number ['3', '²'] ≠ PRes.ok (some ⟨Token.Number 3, ['²']⟩) := by
  decide

/-- Claim C1 (amended): the number matcher scans the longest prefix of
characters accepted by Rust `char::is_numeric`.  An empty prefix is a
non-match.  When the prefix consists entirely of ASCII decimal digits,
the matcher returns `Number v` (`v` the prefix parsed as a signed 32-bit
integer) with the remainder after the prefix, and a non-match when the
value overflows `i32`.  When the prefix contains a non-ASCII numeric
character, the matcher never succeeds: it reports no match, or panics
when the byte offset used for slicing falls inside a multi-byte
character. -/
theorem number_matcher_numeric_spec (s : List Char) :
    (s.takeWhile isNumericRust = [] → Lexer.number s = PRes.ok none) ∧
    (s.takeWhile isNumericRust ≠ [] →
      (s.takeWhile isNumericRust).all isAsciiDigit = true →
      Lexer.number s =
        if digitsVal (s.takeWhile isNumericRust) ≤ 2147483647
        then PRes.ok (some ⟨Token.Number (digitsVal (s.takeWhile isNumericRust)),
                            s.dropWhile isNumericRust⟩)
        else PRes.ok none) ∧
    ((s.takeWhile isNumericRust).all isAsciiDigit = false →
      Lexer.number s = PRes.panic ∨ Lexer.number s = PRes.ok none) := by
  refine ⟨number_of_empty_run s, fun hne hall => ?_, fun hnotall => ?_⟩
  · conv_lhs => rw [← List.takeWhile_append_dropWhile isNumericRust s]
    rw [number_digits (s.takeWhile isNumericRust) (s.dropWhile isNumericRust) hne
      (List.all_eq_true.mp hall) (headNonNumeric_dropWhile s)]
  · exact number_of_bad_run s (s.takeWhile isNumericRust) (s.dropWhile isNumericRust)
      (List.takeWhile_append_dropWhile isNumericRust s).symm
      (fun x hx => List.mem_takeWhile_imp hx) hnotall (headNonNumeric_dropWhile s)

/-- Claim C1 (witness): the amended theorem applied at the concrete input
"12x": the numeric prefix is "12", all ASCII digits, so the matcher
returns `Number 12` with remainder "x". -/
theorem number_matcher_numeric_spec_witness :
    Lexer.number ['1', '2', 'x'] = PRes.ok (some ⟨Token.Number 12, ['x']⟩) := by
  have h := (number_matcher_numeric_spec ['1', '2', 'x']).2.1 (by decide) (by decide)
  rw [h]
  decide

/-- Claim C2: the number matcher is not total — it panics.  On "²a" the
character '²' (U+00B2, two UTF-8 bytes) is Rust-numeric and 'a' is not,
so `position` returns the character index 1, and `&code[..1]` slices the
string at byte offset 1, inside the two-byte character: a Rust panic. -/
theorem number_matcher_panics_on_multibyte :
    Lexer.number ['²', 'a'] = PRes.panic := by
  decide

/-- Claim C3 (counterexample): the claim as stated is false at two inputs.
Scanning "3²" (digit string "3" followed by the non-digit '²') produces
no token at all instead of `Number 3` with remaining "²", because '²' is
Rust-numeric and the parse of "3²" fails.  Scanning "2147483648" alone
produces no token instead of a number token, because the value
overflows `i32`. -/
theorem scan_digit_string_counterexample :
    (Lexer.new ['3', '²'] = PRes.ok ⟨none, []⟩ ∧
     Lexer.new ['3', '²'] ≠ PRes.ok ⟨some (Token.Number 3), ['²']⟩) ∧
    (Lexer.new ("2147483648".toList) = PRes.ok ⟨none, []⟩ ∧
     Lexer.new ("2147483648".toList) ≠
       PRes.ok ⟨some (Token.Number 2147483648), []⟩) := by
  decide

/-- Claim C3 (amended): for every non-empty ASCII decimal digit string `D`
whose value fits in `i32` and every character `C` that is not
Rust-numeric, scanning `D ++ [C]` yields first token
`Number (digitsVal D)` with remaining slice `[C]`, and scanning `D`
alone yields the same token with empty remaining slice. -/
theorem scan_digit_string_spec (D : List Char) (C : Char) (hne : D ≠ [])
    (hall : ∀ c ∈ D, isAsciiDigit c = true) (hv : digitsVal D ≤ 2147483647)
    (hC : isNumericRust C = false) :
    Lexer.new (D ++ [C]) = PRes.ok ⟨some (Token.Number (digitsVal D)), [C]⟩ ∧
    Lexer.new D = PRes.ok ⟨some (Token.Number (digitsVal D)), []⟩ := by
  have h1 : Lexer.lex (D ++ [C]) =
      PRes.ok (some ⟨Token.Number (digitsVal D), [C]⟩) := by
    rw [lex_digits D [C] hne hall (by simp [headNonNumeric, hC]), if_pos hv]
  have h2 : Lexer.lex D = PRes.ok (some ⟨Token.Number (digitsVal D), []⟩) := by
    have h3 := lex_digits D [] hne hall rfl
    rw [List.append_nil] at h3
    rw [h3, if_pos hv]
  constructor
  · unfold Lexer.new
    rw [h1]
  · unfold Lexer.new
    rw [h2]

/-- Claim C3 (witness): the amended theorem at `D = "7"`, `C = 'x'`. -/
theorem scan_digit_string_spec_witness :
    Lexer.new ['7', 'x'] = PRes.ok ⟨some (Token.Number 7), ['x']⟩ ∧
    Lexer.new ['7'] = PRes.ok ⟨some (Token.Number 7), []⟩ :=
  scan_digit_string_spec ['7'] 'x' (by decide) (by decide) (by decide) (by decide)

/-- Claim C4: when a scan step fails, the lookahead becomes `none` and the
remaining slice becomes empty; and from any reachable state, once an
advance call returns `none`, every subsequent advance call returns
`none` with the scanner stuck in the exhausted state — it never
produces a token again. -/
theorem exhaustion_permanent (l : Lexer) (hr : Reach l) :
    (Lexer.lex l.code = PRes.ok none →
      Lexer.next l = PRes.ok (l.current, ⟨none, []⟩)) ∧
    (∀ t l2, Lexer.next l = PRes.ok (t, l2) → t = none →
      ∀ n, iterNext l2 n = PRes.ok (none, ⟨none, []⟩)) := by
  constructor
  · intro hlex
    unfold Lexer.next
    rw [hlex]
  · intro t l2 hnext ht
    subst ht
    have hcur : l.current = none := by
      unfold Lexer.next at hnext
      cases hx : Lexer.lex l.code with
      | panic =>
        rw [hx] at hnext
        exact PRes.noConfusion hnext
      | ok o =>
        cases o with
        | some lexed =>
          rw [hx] at hnext
          injection hnext with h2
          exact congrArg Prod.fst h2
        | none =>
          rw [hx] at hnext
          injection hnext with h2
          exact congrArg Prod.fst h2
    have hcode : l.code = [] := lookahead_inv l hr hcur
    have hl2 : l2 = ⟨none, []⟩ := by
      unfold Lexer.next at hnext
      rw [hcode] at hnext
      have h2 : PRes.ok (l.current, (⟨none, []⟩ : Lexer)) = PRes.ok (none, l2) := hnext
      injection h2 with h3
      exact (congrArg Prod.snd h3).symm
    subst hl2
    exact iterNext_exhausted

/-- Claim C4 (witness): the theorem applied at the reachable exhausted state
obtained by constructing a scanner over the empty input. -/
theorem exhaustion_permanent_witness :
    iterNext ⟨none, []⟩ 2 = PRes.ok (none, ⟨none, []⟩) :=
  (exhaustion_permanent ⟨none, []⟩
    (Reach.init [] ⟨none, []⟩ rfl)).2 none ⟨none, []⟩ rfl rfl 2

/-- Claim C5: scanning "(+ 1 2)" from a fresh scanner yields exactly
`LParen, Plus, Number 1, Number 2, RParen`, and every advance call
after the fifth returns `none` forever. -/
theorem scan_plus_one_two_trace :
    Lexer.new ['(', '+', ' ', '1', ' ', '2', ')'] =
      PRes.ok ⟨some Token.LParen, ['+', ' ', '1', ' ', '2', ')']⟩ ∧
    Lexer.next ⟨some Token.LParen, ['+', ' ', '1', ' ', '2', ')']⟩ =
      PRes.ok (some Token.LParen, ⟨some Token.Plus, [' ', '1', ' ', '2', ')']⟩) ∧
    Lexer.next ⟨some Token.Plus, [' ', '1', ' ', '2', ')']⟩ =
      PRes.ok (some Token.Plus, ⟨some (Token.Number 1), [' ', '2', ')']⟩) ∧
    Lexer.next ⟨some (Token.Number 1), [' ', '2', ')']⟩ =
      PRes.ok (some (Token.Number 1), ⟨some (Token.Number 2), [')']⟩) ∧
    Lexer.next ⟨some (Token.Number 2), [')']⟩ =
      PRes.ok (some (Token.Number 2), ⟨some Token.RParen, []⟩) ∧
    Lexer.next ⟨some Token.RParen, []⟩ =
      PRes.ok (some Token.RParen, ⟨none, []⟩) ∧
    (∀ n, iterNext ⟨none, []⟩ n = PRes.ok (none, ⟨none, []⟩)) :=
  ⟨rfl, rfl, rfl, rfl, rfl, rfl, iterNext_exhausted⟩

/-- Claim C6: the peek/consume contract is broken by a panic.  From the input
"(²a" the constructed scanner is in state (lookahead `LParen`,
rest "²a"); `peek` shows `LParen`, but the advance call that follows
panics inside the number matcher (the byte-slicing bug of C2) instead
of returning the peeked token. -/
theorem peek_consume_panic_divergence :
    Lexer.new ['(', '²', 'a'] = PRes.ok ⟨some Token.LParen, ['²', 'a']⟩ ∧
    Lexer.peek ⟨some Token.LParen, ['²', 'a']⟩ = some Token.LParen ∧
    Lexer.next ⟨some Token.LParen, ['²', 'a']⟩ = PRes.panic :=
  ⟨rfl, rfl, rfl⟩

/-- Claim C7: scanning the unrecognized input "~" and scanning the empty
input "" are observably identical: both construct the same exhausted
state, the very first advance call returns `none`, and every later call
returns `none`. -/
theorem unrecognized_like_empty :
    Lexer.new ['~'] = PRes.ok ⟨none, []⟩ ∧
    Lexer.new [] = PRes.ok ⟨none, []⟩ ∧
    Lexer.new ['~'] = Lexer.new [] ∧
    (∀ n, iterNext ⟨none, []⟩ n = PRes.ok (none, ⟨none, []⟩)) :=
  ⟨rfl, rfl, rfl, iterNext_exhausted⟩

/-- Claim C8 (counterexample): the claim as stated is false.  Scanning
"-2147483648" yields the single token `Minus` and then no token at all
(the digit run parses to a value above `i32::MAX`, so the number match
fails), not two tokens.  Likewise "+3²" yields only `Plus` (the numeric
run "3²" fails to parse). -/
theorem sign_digit_run_counterexample :
    (Lexer.new ('-' :: "2147483648".toList) =
       PRes.ok ⟨some Token.Minus, "2147483648".toList⟩ ∧
     Lexer.next ⟨some Token.Minus, "2147483648".toList⟩ =
       PRes.ok (some Token.Minus, ⟨none, []⟩)) ∧
    (Lexer.new ('+' :: ['3', '²']) = PRes.ok ⟨some Token.Plus, ['3', '²']⟩ ∧
     Lexer.next ⟨some Token.Plus, ['3', '²']⟩ =
       PRes.ok (some Token.Plus, ⟨none, []⟩)) := by
  decide

/-- Claim C8 (amended): for every non-empty ASCII decimal digit run whose
value fits in `i32`, immediately preceded by '+' or '-' and followed by
end of input or a non-numeric character, the scanner produces two
separate tokens — first the operator (`Plus` or `Minus`), then
`Number` for the digit run — and never a single signed number token. -/
theorem sign_digit_run_spec (sgn : Char) (op : Token) (D r : List Char)
    (hs : (sgn = '+' ∧ op = Token.Plus) ∨ (sgn = '-' ∧ op = Token.Minus))
    (hne : D ≠ []) (hall : ∀ c ∈ D, isAsciiDigit c = true)
    (hv : digitsVal D ≤ 2147483647) (hr : headNonNumeric r = true) :
    Lexer.new (sgn :: (D ++ r)) = PRes.ok ⟨some op, D ++ r⟩ ∧
    Lexer.next ⟨some op, D ++ r⟩ =
      PRes.ok (some op, ⟨some (Token.Number (digitsVal D)), r⟩) := by
  have hlexd : Lexer.lex (D ++ r) =
      PRes.ok (some ⟨Token.Number (digitsVal D), r⟩) := by
    rw [lex_digits D r hne hall hr, if_pos hv]
  have hlexs : Lexer.lex (sgn :: (D ++ r)) = PRes.ok (some ⟨op, D ++ r⟩) := by
    rcases hs with ⟨h1, h2⟩ | ⟨h1, h2⟩ <;> (subst h1; subst h2; rfl)
  constructor
  · unfold Lexer.new
    rw [hlexs]
  · unfold Lexer.next
    rw [show (⟨some op, D ++ r⟩ : Lexer).code = D ++ r from rfl, hlexd]

/-- Claim C8 (witness): the amended theorem at "+1". -/
theorem sign_digit_run_spec_witness :
    Lexer.new ['+', '1'] = PRes.ok ⟨some Token.Plus, ['1']⟩ ∧
    Lexer.next ⟨some Token.Plus, ['1']⟩ =
      PRes.ok (some Token.Plus, ⟨some (Token.Number 1), []⟩) :=
  sign_digit_run_spec '+' Token.Plus ['1'] [] (Or.inl ⟨rfl, rfl⟩)
    (by decide) (by decide) (by decide) rfl

/-- Claim C9: scanning always terminates within a number of scan steps
bounded by the input length: every successful scan step consumes at
least one character, any fuel beyond the input length yields the same
result as `scanAll`, and a produced token sequence is no longer than
the input. -/
theorem scan_terminates (code : List Char) :
    (∀ lx, Lexer.lex code = PRes.ok (some lx) → lx.rest.length < code.length) ∧
    (∀ m, code.length < m → scanAllFuel m code = scanAll code) ∧
    (∀ ts, scanAll code = PRes.ok ts → ts.length ≤ code.length) := by
  refine ⟨fun lx h => lex_rest_lt code lx h, fun m hm => ?_, fun ts h => ?_⟩
  · exact scanAllFuel_stable m (code.length + 1) code hm (by omega)
  · exact scanAllFuel_len (code.length + 1) code ts h (by omega)

/-- Claim C9 (witness): the theorem applied at the input "1". -/
theorem scan_terminates_witness :
    scanAllFuel 2 ['1'] = scanAll ['1'] ∧
    ([Token.Number 1] : List Token).length ≤ (['1'] : List Char).length :=
  ⟨(scan_terminates ['1']).2.1 2 (by decide),
   (scan_terminates ['1']).2.2 [Token.Number 1] rfl⟩

/-- Claim C10: in every reachable scanner state, an empty lookahead slot
implies an empty remaining slice: the invariant is established by
construction and preserved by every advance. -/
theorem empty_lookahead_empty_code (l : Lexer) (hr : Reach l)
    (hc : l.current = none) : l.code = [] :=
  lookahead_inv l hr hc

/-- Claim C10 (witness): the invariant at the state constructed from the
empty input. -/
theorem empty_lookahead_empty_code_witness :
    (⟨none, ([] : List Char)⟩ : Lexer).code = [] :=
  empty_lookahead_empty_code ⟨none, []⟩ (Reach.init [] ⟨none, []⟩ rfl) rfl
